import Mathlib

/-!
Shallow embedding of the lsystems repository (TimonPost/lsystems) used to check
the natural-language specification against the code.

Conventions of the embedding:
- Rust String values are modelled as `List Char` (the sources only ever index
  and slice ASCII text, where one byte is one char).
- Fallible code (Rust panics, out-of-bounds indexing, todo!()) is modelled with
  `Except String`, carrying the panic message.
- `usize` subtraction wraps modulo 2^64 (release-mode semantics); the helper
  `usizeSub` makes every such subtraction in the sources explicit.
- HashMap rule tables are modelled as lookup functions returning `Option`,
  which is the exact behaviour of HashMap::get; only point lookups occur in the
  embedded code paths, so iteration order never matters.
- Loops with a cursor are modelled with a fuel parameter set to (length + 1) at
  every call site.  Each iteration of every embedded loop strictly advances its
  cursor, so the cursor leaves the buffer (and the loop exits or errors, as in
  the source) before the fuel can run out; the fuel-exhaustion branches are
  unreachable and are mapped to errors.
- f32 literals flowing through the embedded code paths are modelled as exact
  rationals; no theorem in this file depends on float rounding.
-/

namespace LSys

/-- usize wrap-around subtraction (release-mode semantics of `a - b` on u64). -/
def usizeSub (a b : Nat) : Nat := (a + 2 ^ 64 - b) % 2 ^ 64

/-! ## grammar.rs -/

/-- grammar.rs: enum Symbol. -/
inductive Symbol where
  | Variable (c : Char)
  | Constant (c : Char)
  | Module (c : Char) (params : List Char)
deriving DecidableEq, Repr

/-- The character stored in a symbol (the char written by Alphabet::to_string). -/
def Symbol.char : Symbol → Char
  | .Variable c => c
  | .Constant c => c
  | .Module c _ => c

/-- Whether a symbol is a parametric module. -/
def Symbol.isModule : Symbol → Bool
  | .Module _ _ => true
  | _ => false

/-- grammar.rs: trait SymbolDefiner.  `none` models the panic of a definer on an
unsupported character. -/
def SymbolDefiner := Char → Option Symbol

/-- grammar.rs: DefaultAlphabetSymbolDefiner::into_symbol. -/
def DefaultAlphabetSymbolDefiner : SymbolDefiner := fun c =>
  if c = 'A' ∨ c = 'B' ∨ c = 'C' ∨ c = 'D' ∨ c = 'E' ∨ c = 'F' ∨ c = 'G' ∨ c = 'H'
      ∨ c = 'I' ∨ c = 'J' ∨ c = 'K' ∨ c = 'L' ∨ c = 'M' ∨ c = 'N' ∨ c = 'O' ∨ c = 'P'
      ∨ c = 'Q' ∨ c = 'R' ∨ c = 'S' ∨ c = 'T' ∨ c = 'U' ∨ c = 'V' ∨ c = 'W' ∨ c = 'X'
      ∨ c = 'Y' ∨ c = 'Z' ∨ c = 'f' then
    some (Symbol.Variable c)
  else if c = '0' ∨ c = '1' then
    some (Symbol.Variable c)
  else if c = '∧' ∨ c = '\\' ∨ c = '/' ∨ c = '|' ∨ c = '&' ∨ c = '+' ∨ c = '-'
      ∨ c = '[' ∨ c = ']' then
    some (Symbol.Constant c)
  else
    none

/-- grammar.rs: struct Alphabet. -/
structure Alphabet where
  symbols : List Symbol
  generation : Nat
deriving DecidableEq, Repr

/-- grammar.rs: Alphabet::from_string.  Maps every character through the
definer; an undefined character is the panic "Non supported char". -/
def Alphabet.from_string (s : List Char) (generations : Nat) (definer : SymbolDefiner) :
    Except String Alphabet := do
  let syms ← s.mapM (fun c =>
    match definer c with
    | some sym => Except.ok sym
    | none => Except.error "Non supported char")
  pure ⟨syms, generations⟩

/-- grammar.rs: Alphabet::to_string (writes the char of each symbol in order). -/
def Alphabet.to_string (a : Alphabet) : List Char := a.symbols.map Symbol.char

/-! ## lsystem.rs: production rules -/

/-- lsystem.rs: StochasticProductionRule (char predecessor, static successor). -/
structure StochasticProductionRule where
  predecessor : Char
  successor : List Char
deriving DecidableEq, Repr

/-- lsystem.rs: StochasticProductionRule::apply. -/
def StochasticProductionRule.apply (r : StochasticProductionRule) (symbols : Char) :
    Option (List Char) :=
  if symbols = r.predecessor then some r.successor else none

/-- lsystem.rs: GenericStochasticProductionRule (string predecessor/successor). -/
structure GenericStochasticProductionRule where
  predecessor : List Char
  successor : List Char
deriving DecidableEq, Repr

/-- lsystem.rs: GenericStochasticProductionRule::apply. -/
def GenericStochasticProductionRule.apply (r : GenericStochasticProductionRule)
    (symbols : List Char) : Option (List Char) :=
  if symbols = r.predecessor then some r.successor else none

/-- lsystem.rs: ContextSensitiveRuleCB (symbol, its index, the full buffer). -/
def ContextSensitiveRuleCB := Char → Nat → List Char → Option (List Char)

/-- lsystem.rs: ParameticRuleCB (module name, resolved parameters). -/
def ParameticRuleCB := Char → List Char → Option (List Char)

/-- The four rule tables owned by LSystem (each HashMap modelled as its lookup
function, exactly the behaviour of HashMap::get). -/
structure RuleTables where
  stochastic_rules : Char → Option StochasticProductionRule
  context_sensitive_rules : Char → Option ContextSensitiveRuleCB
  parametric_production_rules : Char → Option ParameticRuleCB
  generic_stochastic_rules : List Char → Option GenericStochasticProductionRule

/-- Rule tables with no rules at all. -/
def RuleTables.empty : RuleTables :=
  ⟨fun _ => none, fun _ => none, fun _ => none, fun _ => none⟩

/-! ## lsystem.rs: the rewriting engine -/

/-- lsystem.rs: LSystem::recursively_iterate_params.  Starting from cursor `i`
(the source has just done symbol_index += 2), the loop body first increments the
cursor and then reads, so the character directly after '(' is never read.
Collects non-comma characters until ')' and returns them together with the
cursor position one past the ')'.  Out-of-bounds indexing is the corresponding
Rust panic.  The fuel starts at (buffer length + 1) and cannot run out before
the cursor leaves the buffer. -/
def recursivelyIterateParams (symbols : List Char) :
    Nat → Nat → List Char → Except String (List Char × Nat)
  | _, 0, _ => .error "index out of bounds"
  | i, fuel + 1, params =>
    let i' := i + 1
    match symbols.get? i' with
    | none => .error "index out of bounds"
    | some current_symbol =>
      if current_symbol = ')' then .ok (params, i' + 1)
      else if current_symbol ≠ ',' then
        recursivelyIterateParams symbols i' fuel (params ++ [current_symbol])
      else
        recursivelyIterateParams symbols i' fuel params

/-- One pass through the else-if rule chain of LSystem::apply_rules_recursive
for one symbol: stochastic table first, then context-sensitive, then generic
(looked up under the one-character string of the symbol), else the identity
production.  `next` re-expands a successor with one generation less.
`symbolIndex` is the current value of the source's symbol_index variable, which
is what a context-sensitive callback receives. -/
def ruleChainStep (tables : RuleTables) (next : List Char → Except String (List Char))
    (symbol : Char) (symbolIndex : Nat) (symbols : List Char) :
    Except String (List Char) :=
  match tables.stochastic_rules symbol with
  | some rule =>
    match rule.apply symbol with
    | some result => next result
    | none => .ok []
  | none =>
    match tables.context_sensitive_rules symbol with
    | some rule =>
      match rule symbol symbolIndex symbols with
      | some result => next result
      | none => .ok []
    | none =>
      match tables.generic_stochastic_rules [symbol] with
      | some rule =>
        match rule.apply [symbol] with
        | some result => next result
        | none => .ok []
      | none => .ok [symbol]

/-- The loop of LSystem::apply_rules_recursive over the symbol buffer, cursor
`i`.  When the next character is '(' the parametric branch runs first (its
result is appended verbatim, never re-expanded); afterwards control falls
through to the rule chain for the same head symbol unless the cursor has left
the buffer.  Exit conditions compare against (length - 1) exactly as the
source does (the buffer is nonempty whenever the loop runs).  The fuel starts
at (buffer length + 1); the cursor strictly increases each iteration, so the
loop always exits before the fuel does. -/
def applyRulesLoop (tables : RuleTables) (next : List Char → Except String (List Char))
    (symbols : List Char) : Nat → Nat → Except String (List Char)
  | 0, _ => .error "loop fuel exhausted"
  | fuel + 1, i =>
    match symbols.get? i with
    | none => .error "index out of bounds"
    | some symbol =>
      let next_symbol := symbols.get? (i + 1)
      if next_symbol = some '(' then do
        let (args, j) ← recursivelyIterateParams symbols (i + 2) (symbols.length + 1) []
        let chunk1 :=
          match tables.parametric_production_rules symbol with
          | some rule =>
            match rule symbol args with
            | some result => result
            | none => []
          | none => []
        let j1 := j + 1
        if j1 > symbols.length - 1 then
          .ok chunk1
        else do
          let chunk2 ← ruleChainStep tables next symbol j1 symbols
          let i2 := j1 + 1
          if i2 > symbols.length - 1 then
            .ok (chunk1 ++ chunk2)
          else do
            let rest ← applyRulesLoop tables next symbols fuel i2
            .ok (chunk1 ++ chunk2 ++ rest)
      else do
        let chunk ← ruleChainStep tables next symbol i symbols
        let i' := i + 1
        if i' > symbols.length - 1 then
          .ok chunk
        else do
          let rest ← applyRulesLoop tables next symbols fuel i'
          .ok (chunk ++ rest)

/-- lsystem.rs: LSystem::apply_rules_recursive.  With zero generations left the
input is appended verbatim; with a nonempty buffer and generations left the
per-symbol loop runs, re-expanding matched successors with one generation
less. -/
def applyRulesRecursive (tables : RuleTables) : List Char → Nat → Except String (List Char)
  | symbols, 0 => .ok symbols
  | symbols, generationsLeft + 1 =>
    if symbols.length = 0 then .ok []
    else
      applyRulesLoop tables (fun s => applyRulesRecursive tables s generationsLeft)
        symbols (symbols.length + 1) 0

/-- lsystem.rs: LSystem::generate — run the recursive expansion on the start
string, then convert the result to an Alphabet through the active definer. -/
def generate (tables : RuleTables) (definer : SymbolDefiner) (start : List Char)
    (generations : Nat) : Except String Alphabet := do
  let result ← applyRulesRecursive tables start generations
  Alphabet.from_string result generations definer

/-! ## lexer.rs: single-character regex classes

Each regex of LanguageRegex is only ever matched against a one-character
slice, so each is embedded as the predicate it computes on one character.
The number regex (digits with an optional dot run) matches a single character
exactly when that character is a digit. -/

/-- lexer.rs symbol_regex on one character. -/
def symbolRegexMatch (c : Char) : Bool :=
  c = '+' || c = '-' || c = '*' || c = '/' || c = '>' || c = '<' || c = '&' ||
  c = '|' || c = '\\' || c = '^' || c = '=' || c = ','

/-- lexer.rs branching_regex on one character. -/
def branchingRegexMatch (c : Char) : Bool := c = '[' || c = ']'

/-- lexer.rs param_regex on one character. -/
def paramRegexMatch (c : Char) : Bool := c = '(' || c = ')'

/-- lexer.rs parentesis_regex on one character. -/
def parentesisRegexMatch (c : Char) : Bool := c = '{' || c = '}'

/-- lexer.rs break_regex on one character. -/
def breakRegexMatch (c : Char) : Bool := c = ';'

/-- lexer.rs char_regex `[a-zA-Z]` on one character. -/
def charRegexMatch (c : Char) : Bool := c.isAlpha

/-- lexer.rs number_regex on one character (a digit). -/
def numberRegexMatch (c : Char) : Bool := c.isDigit

/-- lexer.rs whitespace_regex on one character (the ASCII whitespace class). -/
def whitespaceRegexMatch (c : Char) : Bool :=
  c = ' ' || c = '\t' || c = '\n' || c = '\r' || c = '\x0b' || c = '\x0c'

/-! ## lexer.rs: tokens -/

/-- lexer.rs: enum Token.  The f32 payloads are modelled as exact rationals. -/
inductive Token where
  | Ident (s : List Char)
  | Number (n : ℚ)
  | RangeTok (lo hi : ℚ)
  | Symbol (c : Char)
  | Param (c : Char)
  | Bracket (c : Char)
  | Break
  | Parentesis (c : Char)
  | Space
deriving DecidableEq, Repr

/-- Decimal rendering of a numeric payload.  This approximates Rust's float
formatting; no theorem in this file evaluates it on a Number or Range token
(the round-trip theorems are stated on sources without numeric literals). -/
def ratRender (q : ℚ) : List Char :=
  if q.den = 1 then (toString q.num).toList
  else (toString q.num).toList ++ '/' :: (toString q.den).toList

/-- lexer.rs: impl ToString for Token. -/
def Token.to_string : Token → List Char
  | .Ident s => s
  | .Number n => ratRender n
  | .RangeTok lo hi => ratRender lo ++ '.' :: '.' :: ratRender hi
  | .Symbol c => [c]
  | .Param c => [c]
  | .Bracket c => [c]
  | .Break => [';']
  | .Parentesis c => [c]
  | .Space => [' ']

/-! ## lexer.rs: the lexer -/

/-- lexer.rs: UnlexedTokens::finished, `index > tokens.len() - 1` with usize
wrap-around: on an empty input `len - 1` wraps to 2^64 - 1, so finished is
false even at index 0. -/
def UnlexedTokens.finished (len index : Nat) : Bool := index > usizeSub len 1

/-- Whether a character run contains the substring "..". -/
def containsDotDot : List Char → Bool
  | [] => false
  | '.' :: '.' :: _ => true
  | _ :: rest => containsDotDot rest

/-- The piece of a character run before its first "..". -/
def splitBeforeDotDot : List Char → List Char
  | [] => []
  | '.' :: '.' :: _ => []
  | c :: rest => c :: splitBeforeDotDot rest

/-- The piece of a character run between its first ".." and the following ".."
or the end (the second item of Rust's split("..")). -/
def splitAfterDotDot : List Char → List Char
  | [] => []
  | '.' :: '.' :: rest => splitBeforeDotDot rest
  | _ :: rest => splitAfterDotDot rest

/-- Numeric value of a digit run. -/
def digitsVal (s : List Char) : ℚ :=
  s.foldl (fun acc c => acc * 10 + ((c.toNat - '0'.toNat : Nat) : ℚ)) 0

/-- f32::from_str on the strings the lexer can hand it (runs of digits and
dots): accepted exactly when nonempty with at most one dot and at least one
digit; the value is the exact decimal value (f32 rounding is not modelled; no
theorem in this file depends on a parsed numeric value being rounded). -/
def parseF32 (s : List Char) : Option ℚ :=
  if s.isEmpty then none
  else if s.all (fun c => c.isDigit || c = '.') && s.count '.' ≤ 1 &&
      s.any (fun c => c.isDigit) then
    let ip := s.takeWhile (fun c => c.isDigit)
    let rest := s.dropWhile (fun c => c.isDigit)
    let fp := match rest with
      | '.' :: t => t
      | _ => []
    some (digitsVal ip + digitsVal fp / 10 ^ fp.length)
  else none

/-- lexer.rs: Lexer::lex_string — collect the letter run at the cursor; stops
at the first non-letter or at the end of input, leaving the cursor on the
stopping position.  Fuel as described in the header. -/
def lexString (full : List Char) : Nat → Nat → Except String (List Char × Nat)
  | 0, _ => .error "fuel exhausted"
  | fuel + 1, i =>
    if UnlexedTokens.finished full.length i then .ok ([], i)
    else
      match full.get? i with
      | none => .error "byte index out of bounds"
      | some c =>
        if charRegexMatch c then do
          let (chars, j) ← lexString full fuel (i + 1)
          .ok (c :: chars, j)
        else .ok ([], i)

/-- lexer.rs: Lexer::lex_number — collect the run of digits and dots at the
cursor.  On a non-matching character the source does index -= 1 before
returning (the caller then advances past it again); at end of input it
returns with the cursor already past the end. -/
def lexNumber (full : List Char) : Nat → Nat → Except String (List Char × Nat)
  | 0, _ => .error "fuel exhausted"
  | fuel + 1, i =>
    if UnlexedTokens.finished full.length i then .ok ([], i)
    else
      match full.get? i with
      | none => .error "byte index out of bounds"
      | some c =>
        if numberRegexMatch c || c = '.' then do
          let (chars, j) ← lexNumber full fuel (i + 1)
          .ok (c :: chars, j)
        else .ok ([], usizeSub i 1)

/-- lexer.rs: Lexer::lex_next_char — classify the character at the cursor in
the source's branch order (symbol, break, parentesis, bracket, param,
identifier, number, whitespace, panic) and recurse on the advanced cursor.
Note each whitespace character yields its own Space token. -/
def lexNextChar (full : List Char) : Nat → Nat → Except String (List Token)
  | 0, _ => .error "fuel exhausted"
  | fuel + 1, i =>
    if UnlexedTokens.finished full.length i then .ok []
    else
      match full.get? i with
      | none => .error "byte index out of bounds"
      | some c =>
        if symbolRegexMatch c then do
          let rest ← lexNextChar full fuel (i + 1)
          .ok (Token.Symbol c :: rest)
        else if breakRegexMatch c then do
          let rest ← lexNextChar full fuel (i + 1)
          .ok (Token.Break :: rest)
        else if parentesisRegexMatch c then do
          let rest ← lexNextChar full fuel (i + 1)
          .ok (Token.Parentesis c :: rest)
        else if branchingRegexMatch c then do
          let rest ← lexNextChar full fuel (i + 1)
          .ok (Token.Bracket c :: rest)
        else if paramRegexMatch c then do
          let rest ← lexNextChar full fuel (i + 1)
          .ok (Token.Param c :: rest)
        else if charRegexMatch c then do
          let (chars, j) ← lexString full (full.length + 1) i
          let rest ← lexNextChar full fuel j
          .ok (Token.Ident chars :: rest)
        else if numberRegexMatch c then do
          let (numberChars, k) ← lexNumber full (full.length + 1) i
          let tok ←
            if containsDotDot numberChars then
              match parseF32 (splitBeforeDotDot numberChars) with
              | none => Except.error "could not parse start of the range."
              | some lo =>
                match parseF32 (splitAfterDotDot numberChars) with
                | none => Except.error "could not parse start of the range."
                | some hi => Except.ok (Token.RangeTok lo hi)
            else
              match parseF32 numberChars with
              | none => Except.error "could not parse number"
              | some n => Except.ok (Token.Number n)
          let rest ← lexNextChar full fuel (k + 1)
          .ok (tok :: rest)
        else if whitespaceRegexMatch c then do
          let rest ← lexNextChar full fuel (i + 1)
          .ok (Token.Space :: rest)
        else .error "Unknown char"

/-- lexer.rs: Lexer::lex — start the recursion at cursor 0.  The fuel bound
(length + 2) exceeds the maximal number of iterations (the cursor strictly
increases each step). -/
def Lexer.lex (input : List Char) : Except String (List Token) :=
  lexNextChar input (input.length + 2) 0

/-! ## parser.rs: the parameter-expression sub-parser -/

/-- parser.rs: LexedTokens::finished — same wrap-around comparison as
UnlexedTokens::finished, on the token list. -/
def LexedTokens.finished (tokens : List Token) (index : Nat) : Bool :=
  index > usizeSub tokens.length 1

/-- parser.rs: enum BinOpKind. -/
inductive BinOpKind where
  | Add | Sub | Mul | Div | Rem | BitXor | BitAnd | BitOr | Lt | Le | Ne | Ge | Gt
deriving DecidableEq, Repr

mutual
/-- parser.rs: enum ActionParam (f32 modelled as ℚ, String as List Char). -/
inductive ActionParam where
  | Number (n : ℚ)
  | Constant (s : List Char)
  | Expression (e : ExprKind)
  | None
deriving DecidableEq, Repr

/-- parser.rs: enum ExprKind (the boxed operands are plain subterms here). -/
inductive ExprKind where
  | Binary (op : BinOpKind) (lh rh : ActionParam)
deriving DecidableEq, Repr
end

/-- Rust PartialEq comparison against ActionParam::None. -/
def ActionParam.isNone : ActionParam → Bool
  | .None => true
  | _ => false

/-- parser.rs: parse_parameters.  The token cursor is threaded explicitly (the
returned Nat is the cursor after the call).  On an operator the already
consumed left value `prev_parsed` becomes the left operand and everything
parsed to the right becomes the right operand, so the tree nests to the
right.  The dot branch combines two integer Number tokens into a fractional
value using ceil(log10(rh)) as the digit count: Int.clog embeds the f64
log10().ceil() cast to i32 for positive rh.  (For rh = 0 the Rust cast
saturates the -inf logarithm and the combination is NaN; Int.clog returns 0
there instead — float edge behaviour outside this embedding, and no theorem
takes that path.)  Fuel as described in the header. -/
def parseParameters (tokens : List Token) :
    Nat → Nat → ActionParam → Except String (ActionParam × Nat)
  | 0, _, _ => .error "fuel exhausted"
  | fuel + 1, i, prev_parsed =>
    if LexedTokens.finished tokens i then .error "No more tokens in param list."
    else
      match tokens.get? i with
      | Option.none => .error "called Option::unwrap on a None value"
      | some t =>
        match t with
        | .Number number =>
          let param := ActionParam.Number number
          if ¬ LexedTokens.finished tokens i then
            parseParameters tokens fuel (i + 1) param
          else .ok (param, i)
        | .Ident ident =>
          let param := ActionParam.Constant ident
          if ¬ LexedTokens.finished tokens i then
            parseParameters tokens fuel (i + 1) param
          else .ok (param, i)
        | .Symbol symbol =>
          let i1 := i + 1
          if symbol = '*' then do
            let (rh, j) ← parseParameters tokens fuel i1 prev_parsed
            .ok (.Expression (.Binary .Mul prev_parsed rh), j)
          else if symbol = '+' then do
            let (rh, j) ← parseParameters tokens fuel i1 prev_parsed
            .ok (.Expression (.Binary .Add prev_parsed rh), j)
          else if symbol = '-' then do
            let (rh, j) ← parseParameters tokens fuel i1 prev_parsed
            .ok (.Expression (.Binary .Sub prev_parsed rh), j)
          else if symbol = '/' then do
            let (rh, j) ← parseParameters tokens fuel i1 prev_parsed
            .ok (.Expression (.Binary .Div prev_parsed rh), j)
          else if symbol = '.' then
            match prev_parsed, tokens.get? i1 with
            | ActionParam.Number lh, some (Token.Number rh) =>
              let digits : ℤ := Int.clog 10 rh
              let original_decimal := lh + rh / (10 : ℚ) ^ digits
              parseParameters tokens fuel (i1 + 1) (ActionParam.Number original_decimal)
            | _, _ =>
              .error "Expected number after dot, but found a non decimal."
          else if symbol = ',' then
            .ok (prev_parsed, i1)
          else .error "Unexpected symbol"
        | .Param param =>
          if param = '(' then
            parseParameters tokens fuel (i + 1) prev_parsed
          else if param = ')' then
            .ok (prev_parsed, i + 1)
          else .error "explicit panic"
        | _ => .error "Not expected"

/-- parser.rs: the collection phase of parse_module_parameters — copy tokens
from the stream into a list, tracking '(' on a stack and stopping once a ')'
empties it (or once the stream ends). -/
def collectParamTokens (tokens : List Token) :
    Nat → Nat → List Token → List Char → Except String (List Token × Nat)
  | 0, _, _, _ => .error "fuel exhausted"
  | fuel + 1, i, params, param_stack =>
    match tokens.get? i with
    | Option.none => .ok (params, i)
    | some token =>
      match token with
      | .Param ident =>
        let params := params ++ [token]
        let i1 := i + 1
        if ident = ')' then
          match param_stack.getLast? with
          | Option.none => .error "msg"
          | some p =>
            if p = '(' then
              let param_stack := param_stack.dropLast
              if param_stack.isEmpty then .ok (params, i1)
              else collectParamTokens tokens fuel i1 params param_stack
            else .error "assertion failed"
        else if ident = '(' then
          collectParamTokens tokens fuel i1 params (param_stack ++ ['('])
        else
          collectParamTokens tokens fuel i1 params param_stack
      | _ => collectParamTokens tokens fuel (i + 1) (params ++ [token]) param_stack

/-- parser.rs: the reparse phase of parse_module_parameters — repeatedly run
parse_parameters over the collected tokens, keeping every non-None result. -/
def parseParametersLoop (tokens : List Token) :
    Nat → Nat → List ActionParam → Except String (List ActionParam)
  | 0, _, _ => .error "fuel exhausted"
  | fuel + 1, i, acc =>
    if LexedTokens.finished tokens i then .ok acc
    else do
      let (parsed_token, j) ← parseParameters tokens (tokens.length + 1) i ActionParam.None
      if parsed_token.isNone then parseParametersLoop tokens fuel j acc
      else parseParametersLoop tokens fuel j (acc ++ [parsed_token])

/-- parser.rs: parse_module_parameters — collect the parenthesised token run
from the stream (first phase), filter spaces as LexedTokens::new does, then
reparse it into action parameters (second phase).  Returns the parameters and
the cursor into the original stream. -/
def parseModuleParameters (tokens : List Token) (i : Nat) :
    Except String (List ActionParam × Nat) := do
  let (collected, i') ← collectParamTokens tokens (tokens.length + 1) i [] []
  let filtered := collected.filter (fun t => ¬ t = Token.Space)
  let params ← parseParametersLoop filtered (filtered.length + 1) 0 []
  .ok (params, i')

/-! ## abs.rs and action.rs: the second parameter AST and its evaluator -/

mutual
/-- abs.rs: enum ActionParam (the variant used by action.rs). -/
inductive AbsActionParam where
  | Number (n : ℚ)
  | Constant (s : List Char)
  | Expression (e : AbsExprKind)
  | None
deriving DecidableEq, Repr

/-- abs.rs: enum ExprKind, including the Random(Range f32) variant. -/
inductive AbsExprKind where
  | Binary (op : BinOpKind) (lh rh : AbsActionParam)
  | Random (lo hi : ℚ)
deriving DecidableEq, Repr
end

/-- The external perchance uniform_range_f32 draw: from a state of the
process-global generator (perchance::global(), which action.rs never
constructs or seeds) and a range it produces a value and the advanced state.
perchance is an external crate, so the evaluator is parametric in it; the
global state persists across ExecuteContext constructions within a process,
so it is threaded through evaluation explicitly. -/
def RngSampler := Nat → ℚ × ℚ → ℚ × Nat

/-- action.rs: ParamsResolver::action_param.  Number leaves resolve directly;
Constant leaves are the "constants/variables not yet supported" panic; binary
expressions evaluate left then right (a None operand propagates via the `?`
operator) and only Add/Sub/Mul/Div are implemented; Random draws one sample
from the global generator per evaluation.  The global generator state is
threaded through and returned. -/
def actionParam (sample : RngSampler) : AbsActionParam → Nat → Except String (Option ℚ × Nat)
  | .Number number, g => .ok (some number, g)
  | .Constant _, _ =>
    .error "The usage of constants/variables is not yet supported."
  | .Expression (.Binary op lh rh), g => do
    let (lhv, g1) ← actionParam sample lh g
    match lhv with
    | Option.none => .ok (Option.none, g1)
    | some lq => do
      let (rhv, g2) ← actionParam sample rh g1
      match rhv with
      | Option.none => .ok (Option.none, g2)
      | some rq =>
        match op with
        | .Add => .ok (some (lq + rq), g2)
        | .Sub => .ok (some (lq - rq), g2)
        | .Mul => .ok (some (lq * rq), g2)
        | .Div => .ok (some (lq / rq), g2)
        | _ => .error "The binary operation is not supported yet as action parameter."
  | .Expression (.Random lo hi), g =>
    let (rand, g') := sample g (lo, hi)
    .ok (some rand, g')
  | .None, g => .ok (Option.none, g)

/-! ## turtle_graphics.rs -/

/-- A 4x4 rational matrix standing in for macaw::Mat4 (f32 entries modelled as
ℚ; no theorem in this file performs matrix arithmetic). -/
def Mat4 := Fin 4 → Fin 4 → ℚ

/-- macaw::Mat4::IDENTITY. -/
def Mat4.identity : Mat4 := fun i j => if i = j then 1 else 0

/-- macaw::Vec3 with rational components. -/
structure Vec3 where
  x : ℚ
  y : ℚ
  z : ℚ
deriving DecidableEq, Repr

/-- turtle_graphics.rs: struct Turtle (a plain value: rotation, scale,
origin).  The movement methods involve f32 trigonometry and are not needed by
any claim, so only the state is embedded. -/
structure Turtle where
  rotation : Mat4
  scale : Mat4
  origin : Vec3

/-- turtle_graphics.rs: Turtle::new. -/
def Turtle.new : Turtle :=
  { rotation := Mat4.identity, scale := Mat4.identity, origin := ⟨0, -1/2, 0⟩ }

/-- turtle_graphics.rs: TurtleTransformStack — a VecDeque of turtles used with
push_back/pop_back, i.e. the back of the list is the top. -/
abbrev TurtleTransformStack := List Turtle

/-- turtle_graphics.rs: TurtleTransformStack::new. -/
def TurtleTransformStack.new : TurtleTransformStack := []

/-- turtle_graphics.rs: TurtleTransformStack::push (push_back of a full
turtle value). -/
def TurtleTransformStack.push (s : TurtleTransformStack) (transform : Turtle) :
    TurtleTransformStack := s ++ [transform]

/-- turtle_graphics.rs: TurtleTransformStack::pop — pop_back().unwrap(); the
unwrap on an empty stack is the fatal error. -/
def TurtleTransformStack.pop (s : TurtleTransformStack) :
    Except String (Turtle × TurtleTransformStack) :=
  match s.getLast? with
  | Option.none => .error "called Option::unwrap on a None value"
  | some t => .ok (t, s.dropLast)

/-! ## lsystem.rs: ExecuteContext and run -/

/-- lsystem.rs: struct ExecuteContext — the elements produced by actions, the
transform stack, and the current turtle.  These are its only fields. -/
structure ExecuteContext (T : Type) where
  elements : List T
  transform_stack : TurtleTransformStack
  turtle : Turtle

/-- lsystem.rs: ExecuteContext::new — empty elements, empty stack, fresh
turtle.  It takes no seed and holds no random generator. -/
def ExecuteContext.new (T : Type) : ExecuteContext T :=
  { elements := [], transform_stack := TurtleTransformStack.new, turtle := Turtle.new }

/-- parser.rs: struct Action (an action name and its parsed parameters). -/
structure Action where
  name : List Char
  params : List ActionParam

/-- An executable action instance: the LSystemAction::execute capability.
Execution mutates only the context. -/
def LSystemActionFun (T : Type) := Symbol → ExecuteContext T → ExecuteContext T

/-- lsystem.rs: the loop body of LSystem::run over the alphabet symbols.  A
Variable or Constant symbol looks up the first interpret binding whose trigger
string equals the one-character string of the symbol; if the resolver produces
an action it executes it on the context; otherwise the step leaves the context
untouched.  A Module symbol is the todo!() panic.  Nothing else modifies the
context: in particular no turtle snapshot is recorded per step. -/
def runSymbols (action_rules : List (List Char × Action))
    (resolver : List Char → Action → Option (LSystemActionFun T)) :
    List Symbol → ExecuteContext T → Except String (ExecuteContext T)
  | [], context => .ok context
  | token :: rest, context =>
    match token with
    | .Variable var =>
      let context :=
        match action_rules.find? (fun x => x.1 = [var]) with
        | some (interpret, byAction) =>
          match resolver interpret byAction with
          | some action => action token context
          | Option.none => context
        | Option.none => context
      runSymbols action_rules resolver rest context
    | .Constant constant =>
      let context :=
        match action_rules.find? (fun x => x.1 = [constant]) with
        | some (interpret, byAction) =>
          match resolver interpret byAction with
          | some action => action token context
          | Option.none => context
        | Option.none => context
      runSymbols action_rules resolver rest context
    | .Module _ _ => .error "not yet implemented"

/-- lsystem.rs: LSystem::run — create a fresh ExecuteContext and walk the
alphabet. -/
def LSystem.run (action_rules : List (List Char × Action))
    (resolver : List Char → Action → Option (LSystemActionFun T))
    (alphabet : Alphabet) : Except String (ExecuteContext T) :=
  runSymbols action_rules resolver alphabet.symbols (ExecuteContext.new T)

/-! ## Concrete instances used in the theorems -/

/-- The algae system of the spec and of tests/lsystem.rs, with its two
single-character rules installed as generic (string-keyed) rules. -/
def algaeTables : RuleTables :=
  { RuleTables.empty with
    generic_stochastic_rules := fun s =>
      if s = ['A'] then some ⟨['A'], ['A', 'B']⟩
      else if s = ['B'] then some ⟨['B'], ['A']⟩
      else none }

/-- The expected algae string after seven generations. -/
def algaeSeven : List Char := "ABAABABAABAABABAABABAABAABABAABAAB".toList

/-- The token run of the parameter text (1+2*3) as collected for the
parameter sub-parser. -/
def foldTokens : List Token :=
  [Token.Param '(', Token.Number 1, Token.Symbol '+', Token.Number 2,
   Token.Symbol '*', Token.Number 3, Token.Param ')']

/-- The right-nested tree 1+(2*3) that parse_parameters actually produces. -/
def rightNestedTree : ActionParam :=
  .Expression (.Binary .Add (.Number 1)
    (.Expression (.Binary .Mul (.Number 2) (.Number 3))))

/-- The left-folded tree (1+2)*3 that the claim predicts. -/
def leftFoldTree : ActionParam :=
  .Expression (.Binary .Mul
    (.Expression (.Binary .Add (.Number 1) (.Number 2))) (.Number 3))

/-- The parametric module text a(0,1,2) (the axiom of the parametric test). -/
def moduleString : List Char := "a(0,1,2)".toList

/-- A parametric rule whose successor is exactly the argument list it
receives, making the received arguments observable in the output. -/
def revealRule : ParameticRuleCB := fun _ args => some args

/-- Rule tables with just the revealing parametric rule on 'a'. -/
def revealTables : RuleTables :=
  { RuleTables.empty with
    parametric_production_rules := fun c => if c = 'a' then some revealRule else none }

/-- Rule tables combining the revealing parametric rule on 'a' with a generic
rule that would rewrite the character '1' if the engine ever re-expanded a
parametric successor. -/
def revealAndRewriteTables : RuleTables :=
  { RuleTables.empty with
    parametric_production_rules := fun c => if c = 'a' then some revealRule else none,
    generic_stochastic_rules := fun s => if s = ['1'] then some ⟨['1'], ['X', 'X']⟩ else none }

/-- The source characters for which the restricted lexer round-trip theorem is
stated: operator/symbol characters, ';', braces, brackets, parentheses,
letters, and the plain space.  Digits, dots and non-space whitespace are
excluded (their tokens re-render differently from their source text). -/
def allowedSourceChar (c : Char) : Bool :=
  symbolRegexMatch c || breakRegexMatch c || parentesisRegexMatch c ||
  branchingRegexMatch c || paramRegexMatch c || charRegexMatch c || c = ' '

/-- A one-symbol alphabet (one Variable, no interpret binding for it). -/
def oneVarAlphabet : Alphabet := ⟨[Symbol.Variable 'A'], 1⟩

/-- An alphabet containing a Module symbol. -/
def oneModuleAlphabet : Alphabet := ⟨[Symbol.Variable 'A', Symbol.Module 'a' ['x']], 1⟩

/-- A resolver that never produces an action instance. -/
def nullResolver : List Char → Action → Option (LSystemActionFun Turtle) := fun _ _ => none

/-- A model instance of the external uniform sampler: successive draws differ
(the draw is the state counter, and the state advances by one). -/
def counterSampler : RngSampler := fun g _ => ((g : ℚ), g + 1)

/-- The action parameter Random(0, 1) as parsed from a script. -/
def randomParam : AbsActionParam := .Expression (.Random 0 1)

/-- Push a list of turtle values in order (each push saves the then-current
turtle value, mutated arbitrarily between pushes). -/
def pushAll (s : TurtleTransformStack) (ts : List Turtle) : TurtleTransformStack :=
  ts.foldl TurtleTransformStack.push s

/-- Perform n pops, collecting the popped turtle values in order. -/
def popN : Nat → TurtleTransformStack → Except String (List Turtle × TurtleTransformStack)
  | 0, s => .ok ([], s)
  | n + 1, s => do
    let (t, s') ← s.pop
    let (ts, s'') ← popN n s'
    .ok (t :: ts, s'')

/-! ## Theorems -/

/-- C1: for the LSystem with start string "A" and the two generic character
rules A to AB and B to A (and no other rules), generate(7) returns an
Alphabet with 34 symbols whose to_string is
"ABAABABAABAABABAABABAABAABABAABAAB". -/
theorem algae_seven_generations :
    ∃ a, generate algaeTables DefaultAlphabetSymbolDefiner ['A'] 7 = Except.ok a ∧
      a.symbols.length = 34 ∧ a.to_string = algaeSeven :=
  ⟨⟨algaeSeven.map Symbol.Variable, 7⟩, rfl, rfl, rfl⟩

/-- C3 counterexample: the parameter sub-parser applied to the token run of
(1+2*3) produces the right-nested tree Binary(Add, 1, Binary(Mul, 2, 3)),
which is not the left-folded Binary(Mul, Binary(Add, 1, 2), 3) the claim
predicts: the recursion makes everything to the right of the first operator
the right operand, so the fold is right-to-left, not left-to-right. -/
theorem param_fold_counterexample :
    parseModuleParameters foldTokens 0 = Except.ok ([rightNestedTree], 7) ∧
      rightNestedTree ≠ leftFoldTree :=
  ⟨rfl, by decide⟩

/-- C3 amended: the parameter sub-parser applies no operator precedence and
folds right to left — parsing the parameter text 1+2*3 yields the expression
1+(2*3), i.e. Binary(Add, 1, Binary(Mul, 2, 3)), not (1+2)*3. -/
theorem param_fold_right_nested :
    parseModuleParameters foldTokens 0 = Except.ok ([rightNestedTree], 7) := rfl

/-- C4 counterexample: generating a(0,1,2) for one generation with a
parametric rule on 'a' whose successor is its received argument list yields
"12": the engine hands the rule ['1','2'], not the full argument run
['0','1','2'] — the character directly after '(' is skipped by the
pre-incrementing collection loop. -/
theorem parametric_args_counterexample :
    applyRulesRecursive revealTables moduleString 1 = Except.ok ['1', '2'] ∧
      (['1', '2'] : List Char) ≠ ['0', '1', '2'] :=
  ⟨rfl, by decide⟩

/-- C6 counterexample: running a one-symbol alphabet with no interpret
bindings returns the fresh ExecuteContext: its element list is empty, not one
snapshot per alphabet symbol — run itself never appends a turtle snapshot. -/
theorem run_snapshot_counterexample :
    LSystem.run [] nullResolver oneVarAlphabet = Except.ok (ExecuteContext.new Turtle) ∧
      (ExecuteContext.new Turtle).elements.length = 0 ∧ (0 : Nat) ≠ 1 :=
  ⟨rfl, rfl, by decide⟩

/-- C7 counterexample: Random evaluation reads the process-global generator,
which the ExecuteContext neither owns nor seeds, so the state left by one
execution is the state the next one starts from.  With a sampler whose
successive draws differ, evaluating the same Random(0,1) parameter in two
consecutive executions of the identical script yields 0 and then 1 — not the
identical results that construction-time seeding would force. -/
theorem random_global_stream_counterexample :
    actionParam counterSampler randomParam 0 = Except.ok (some 0, 1) ∧
      actionParam counterSampler randomParam 1 = Except.ok (some 1, 2) ∧
      (0 : ℚ) ≠ 1 :=
  ⟨rfl, rfl, by norm_num⟩

/-- C7 amended: Random(lo, hi) draws one uniform sample per evaluation from
the process-global generator stream: evaluating Random + Random draws twice,
the second draw starting from the state the first left behind, and returns
the advanced state — repeated reads re-sample and the stream is never reset
by context construction. -/
theorem random_resamples_global_stream (sample : RngSampler) (lo hi : ℚ) (g : Nat) :
    actionParam sample
        (.Expression (.Binary .Add (.Expression (.Random lo hi))
          (.Expression (.Random lo hi)))) g =
      Except.ok (some ((sample g (lo, hi)).1 + (sample (sample g (lo, hi)).2 (lo, hi)).1),
        (sample (sample g (lo, hi)).2 (lo, hi)).2) := by
  have hb : ∀ {α β : Type} (a : α) (f : α → Except String β),
      (Except.ok a >>= f) = f a := fun _ _ => rfl
  rcases h1 : sample g (lo, hi) with ⟨v1, g1⟩
  rcases h2 : sample g1 (lo, hi) with ⟨v2, g2⟩
  simp only [actionParam, h1, hb]
  simp only [h2, hb]

/-- C10: lexing the empty string fails instead of returning an empty token
sequence: the end-of-input check index > len - 1 underflows (wrapping in
release mode, so finished is false at index 0 on empty input), and the lexer
then reads one byte past the end, which is fatal.  LexedTokens::finished on an
empty token list underflows the same way. -/
theorem lex_empty_input_fails :
    UnlexedTokens.finished 0 0 = false ∧
      Lexer.lex [] = Except.error "byte index out of bounds" ∧
      Lexer.lex [] ≠ Except.ok [] ∧
      LexedTokens.finished [] 0 = false :=
  ⟨by decide, rfl,
   by
     intro h
     rw [show Lexer.lex [] = Except.error "byte index out of bounds" from rfl] at h
     exact Except.noConfusion h,
   by decide⟩

/-- Helper: binding an ok value in the Except monad applies the continuation. -/
theorem okBind {α β : Type} (a : α) (f : α → Except String β) :
    (Except.ok a >>= f) = f a := rfl

/-- Helper: pushAll is list append (push is push_back). -/
theorem pushAll_eq_append (ts : List Turtle) :
    ∀ s : TurtleTransformStack, pushAll s ts = s ++ ts := by
  induction ts with
  | nil => intro s; simp [pushAll]
  | cons t rest ih =>
    intro s
    have : pushAll s (t :: rest) = pushAll (s ++ [t]) rest := rfl
    rw [this, ih]
    simp

/-- Helper: popping as many values as were appended returns them newest first
and restores the original stack. -/
theorem popN_append (ts : List Turtle) :
    ∀ s0 : TurtleTransformStack, popN ts.length (s0 ++ ts) = Except.ok (ts.reverse, s0) := by
  induction ts using List.reverseRecOn with
  | nil => intro s0; simp [popN]
  | append_singleton rest t ih =>
    intro s0
    have hlen : (rest ++ [t]).length = rest.length + 1 := by simp
    rw [hlen, ← List.append_assoc]
    have hpop : TurtleTransformStack.pop ((s0 ++ rest) ++ [t]) =
        Except.ok (t, s0 ++ rest) := by
      simp [TurtleTransformStack.pop]
    simp only [popN, hpop, okBind, ih s0]
    simp

/-- C8: for any starting stack and any nonempty list of saved turtle values
(the first being the turtle state immediately before the first push, the rest
the arbitrarily mutated states saved by the later pushes), pushing them all
and then popping the same number of times succeeds, restores the stack, and
the value returned by the final pop is the first pushed value. -/
theorem transform_stack_balanced_pushpop (s0 : TurtleTransformStack) (t0 : Turtle)
    (rest : List Turtle) :
    popN (t0 :: rest).length (pushAll s0 (t0 :: rest)) =
      Except.ok ((t0 :: rest).reverse, s0) ∧
    ((t0 :: rest).reverse).getLast? = some t0 := by
  constructor
  · rw [pushAll_eq_append]
    exact popN_append _ s0
  · simp

/-- Helper: walking symbols that include a Module ends in the todo!() panic,
for every rule set, resolver and starting context. -/
theorem runSymbols_module_fatal {T : Type} (action_rules : List (List Char × Action))
    (resolver : List Char → Action → Option (LSystemActionFun T)) :
    ∀ (syms : List Symbol) (ctx : ExecuteContext T),
      (∃ s ∈ syms, s.isModule = true) →
      runSymbols action_rules resolver syms ctx = Except.error "not yet implemented" := by
  intro syms
  induction syms with
  | nil =>
    rintro ctx ⟨s, hs, _⟩
    cases hs
  | cons head tail ih =>
    rintro ctx ⟨s, hs, hm⟩
    cases head with
    | Module c ps => rfl
    | Variable v =>
      have hst : s ∈ tail := by
        rcases List.mem_cons.mp hs with h | h
        · subst h; cases hm
        · exact h
      exact ih _ ⟨s, hst, hm⟩
    | Constant c =>
      have hst : s ∈ tail := by
        rcases List.mem_cons.mp hs with h | h
        · subst h; cases hm
        · exact h
      exact ih _ ⟨s, hst, hm⟩

/-- C9: LSystem::run hits the todo!() panic whenever the alphabet contains a
Module symbol, for every set of interpret bindings and every resolver; the
Module arm runs before any action dispatch, so no action is dispatched for a
module symbol. -/
theorem run_module_is_fatal {T : Type} (action_rules : List (List Char × Action))
    (resolver : List Char → Action → Option (LSystemActionFun T)) (a : Alphabet)
    (h : ∃ s ∈ a.symbols, s.isModule = true) :
    LSystem.run action_rules resolver a = Except.error "not yet implemented" :=
  runSymbols_module_fatal action_rules resolver a.symbols _ h

/-- C9 witness: a concrete alphabet with a Module behind a Variable. -/
theorem run_module_is_fatal_witness :
    (∃ s ∈ oneModuleAlphabet.symbols, s.isModule = true) ∧
    LSystem.run [] nullResolver oneModuleAlphabet = Except.error "not yet implemented" :=
  ⟨⟨Symbol.Module 'a' ['x'], by decide, rfl⟩,
   run_module_is_fatal [] nullResolver oneModuleAlphabet
     ⟨Symbol.Module 'a' ['x'], by decide, rfl⟩⟩

/-- Helper: with no interpret bindings installed, walking a Module-free symbol
list leaves the context untouched. -/
theorem runSymbols_no_bindings {T : Type}
    (resolver : List Char → Action → Option (LSystemActionFun T)) :
    ∀ (syms : List Symbol) (ctx : ExecuteContext T),
      (∀ s ∈ syms, s.isModule = false) →
      runSymbols [] resolver syms ctx = Except.ok ctx := by
  intro syms
  induction syms with
  | nil => intro ctx _; rfl
  | cons head tail ih =>
    intro ctx h
    cases head with
    | Module c ps =>
      have := h (Symbol.Module c ps) (List.mem_cons_self _ _)
      cases this
    | Variable v => exact ih ctx (fun s hs => h s (List.mem_cons_of_mem _ hs))
    | Constant c => exact ih ctx (fun s hs => h s (List.mem_cons_of_mem _ hs))

/-- C6 amended: run itself appends no turtle snapshot and performs no per-step
bookkeeping; the ExecuteContext is mutated only by resolved actions.  With no
interpret bindings, run over any Module-free alphabet returns the fresh
context unchanged — in particular its element list is empty rather than one
entry per alphabet symbol. -/
theorem run_no_implicit_snapshots {T : Type}
    (resolver : List Char → Action → Option (LSystemActionFun T)) (a : Alphabet)
    (h : ∀ s ∈ a.symbols, s.isModule = false) :
    LSystem.run [] resolver a = Except.ok (ExecuteContext.new T) :=
  runSymbols_no_bindings resolver a.symbols _ h

/-- C6 witness: the one-variable alphabet with no bindings. -/
theorem run_no_implicit_snapshots_witness :
    (∀ s ∈ oneVarAlphabet.symbols, s.isModule = false) ∧
    LSystem.run [] nullResolver oneVarAlphabet = Except.ok (ExecuteContext.new Turtle) :=
  ⟨by decide, run_no_implicit_snapshots nullResolver oneVarAlphabet (by decide)⟩

/-- Helper: mapping a fully defined, character-preserving definer over a
character list succeeds and the produced symbols carry exactly those
characters. -/
theorem mapM_definer_ok (definer : SymbolDefiner)
    (hchar : ∀ c s, definer c = some s → s.char = c) :
    ∀ s : List Char, (∀ c ∈ s, (definer c).isSome) →
      ∃ syms, (s.mapM (fun c =>
          match definer c with
          | some sym => Except.ok sym
          | none => Except.error "Non supported char")) = Except.ok syms ∧
        syms.map Symbol.char = s := by
  intro s
  induction s with
  | nil => intro _; exact ⟨[], rfl, rfl⟩
  | cons c t ih =>
    intro h
    obtain ⟨sym, hsym⟩ := Option.isSome_iff_exists.mp (h c (List.mem_cons_self _ _))
    obtain ⟨syms, hsyms, hmap⟩ := ih (fun x hx => h x (List.mem_cons_of_mem _ hx))
    refine ⟨sym :: syms, ?_, ?_⟩
    · rw [List.mapM_cons, hsym, hsyms]
      rfl
    · simp [hmap, hchar c sym hsym]

/-- C2: for every rule table set, every definer that is defined and
character-preserving on the start string, generate(0) returns the start
string unchanged as an Alphabet tagged with generation 0. -/
theorem generate_zero_returns_start (tables : RuleTables) (definer : SymbolDefiner)
    (start : List Char) (hdef : ∀ c ∈ start, (definer c).isSome)
    (hchar : ∀ c s, definer c = some s → s.char = c) :
    ∃ a, generate tables definer start 0 = Except.ok a ∧
      a.to_string = start ∧ a.generation = 0 := by
  obtain ⟨syms, hsyms, hmap⟩ := mapM_definer_ok definer hchar start hdef
  refine ⟨⟨syms, 0⟩, ?_, hmap, rfl⟩
  show Alphabet.from_string start 0 definer = Except.ok ⟨syms, 0⟩
  rw [Alphabet.from_string, hsyms]
  rfl

/-- C2 witness: the default definer on the start string "AB" with empty rule
tables. -/
theorem generate_zero_returns_start_witness :
    (∀ c ∈ ['A', 'B'], (DefaultAlphabetSymbolDefiner c).isSome) ∧
    ∃ a, generate RuleTables.empty DefaultAlphabetSymbolDefiner ['A', 'B'] 0 = Except.ok a ∧
      a.to_string = ['A', 'B'] ∧ a.generation = 0 := by
  have hchar : ∀ c s, DefaultAlphabetSymbolDefiner c = some s → s.char = c := by
    intro c s h
    simp only [DefaultAlphabetSymbolDefiner] at h
    split_ifs at h <;> first
      | exact Option.noConfusion h
      | (cases Option.some.inj h; rfl)
  exact ⟨by decide,
    generate_zero_returns_start RuleTables.empty DefaultAlphabetSymbolDefiner
      ['A', 'B'] (by decide) hchar⟩

/-- C4 amended: when the engine meets a symbol directly followed by '(' in
the module text a(0,1,2), it hands the parametric rule the argument
characters from the second character after '(' up to ')' with commas dropped
(here ['1','2'] — the first argument character is skipped), and the rule's
successor is the entire output, appended verbatim: it is never re-expanded,
for every remaining generation count and arbitrary contents of the other rule
tables. -/
theorem parametric_successor_verbatim (stoch : Char → Option StochasticProductionRule)
    (ctxr : Char → Option ContextSensitiveRuleCB)
    (partab : Char → Option ParameticRuleCB)
    (gen : List Char → Option GenericStochasticProductionRule)
    (par : ParameticRuleCB) (hpar : partab 'a' = some par)
    (gens : Nat) (hg : 1 ≤ gens) :
    applyRulesRecursive ⟨stoch, ctxr, partab, gen⟩ moduleString gens =
      Except.ok ((par 'a' ['1', '2']).getD []) := by
  obtain ⟨g, rfl⟩ : ∃ g, gens = g + 1 := ⟨gens - 1, (Nat.succ_pred_eq_of_pos hg).symm⟩
  have h2 : applyRulesRecursive ⟨stoch, ctxr, partab, gen⟩ moduleString (g + 1) =
      Except.ok (match partab 'a' with
        | some rule =>
          match rule 'a' ['1', '2'] with
          | some result => result
          | none => []
        | none => []) := rfl
  rw [h2, hpar]
  cases hres : par 'a' ['1', '2'] <;> simp [hres]

/-- C4 witness: the revealing rule together with a generic rewrite rule on
'1' that would fire if the successor were re-expanded — it is not. -/
theorem parametric_successor_verbatim_witness :
    revealAndRewriteTables.parametric_production_rules 'a' = some revealRule ∧
    (1 ≤ 2) ∧
    applyRulesRecursive revealAndRewriteTables moduleString 2 =
      Except.ok ((revealRule 'a' ['1', '2']).getD []) :=
  ⟨rfl, by decide,
   parametric_successor_verbatim revealAndRewriteTables.stochastic_rules
     revealAndRewriteTables.context_sensitive_rules
     revealAndRewriteTables.parametric_production_rules
     revealAndRewriteTables.generic_stochastic_rules
     revealRule rfl 2 (by decide)⟩

/-- C5 counterexample: the source "\t" is accepted by the lexer (one Space
token), but the Space token renders as a plain ' ', so the concatenation of
the emitted tokens' to_string is " ", not the original "\t": the round trip
fails on accepted sources with non-space whitespace (each whitespace
character becomes a Space token that always prints as ' '). -/
theorem lex_roundtrip_counterexample :
    Lexer.lex ['\t'] = Except.ok [Token.Space] ∧
      (([Token.Space].map Token.to_string).flatten = [' ']) ∧
      ([' '] : List Char) ≠ ['\t'] :=
  ⟨rfl, rfl, by decide⟩

/-- Helper: a successful get? means membership. -/
theorem get?_some_mem (l : List Char) (i : Nat) (c : Char) (h : l.get? i = some c) :
    c ∈ l := by
  induction l generalizing i with
  | nil => cases h
  | cons x t ih =>
    cases i with
    | zero =>
      cases h
      exact List.mem_cons_self _ _
    | succ j => exact List.mem_cons_of_mem _ (ih j h)

/-- Helper: a failing get? means the index is past the end. -/
theorem get?_none_le (l : List Char) (i : Nat) (h : l.get? i = none) :
    l.length ≤ i := by
  induction l generalizing i with
  | nil => exact Nat.zero_le _
  | cons x t ih =>
    cases i with
    | zero => cases h
    | succ j => exact Nat.succ_le_succ (ih j h)

/-- Helper: the suffix at a valid index starts with the element there. -/
theorem drop_cons_of_get? (l : List Char) (i : Nat) (c : Char) (h : l.get? i = some c) :
    l.drop i = c :: l.drop (i + 1) := by
  induction l generalizing i with
  | nil => cases h
  | cons x t ih =>
    cases i with
    | zero => cases h; rfl
    | succ j => exact ih j h

/-- Helper: a list is its takeWhile prefix followed by the suffix at the
prefix's length. -/
theorem takeWhile_append_drop (p : Char → Bool) (l : List Char) :
    l.takeWhile p ++ l.drop (l.takeWhile p).length = l := by
  induction l with
  | nil => rfl
  | cons c t ih =>
    by_cases h : p c
    · simp [List.takeWhile_cons, h, ih]
    · simp [List.takeWhile_cons, h]

/-- Helper: usize wrap-around len - 1 is plain len - 1 in the usize range. -/
theorem usizeSub_one (len : Nat) (h1 : 1 ≤ len) (h2 : len < 2 ^ 64) :
    usizeSub len 1 = len - 1 := by
  have heq : len + 2 ^ 64 - 1 = (len - 1) + 2 ^ 64 := by omega
  rw [usizeSub, heq, Nat.add_mod_right, Nat.mod_eq_of_lt (by omega)]

/-- Helper: on nonempty input of usize length the end-of-input check is the
ordinary comparison len <= index. -/
theorem finished_eq (len i : Nat) (h1 : 1 ≤ len) (h2 : len < 2 ^ 64) :
    UnlexedTokens.finished len i = decide (len ≤ i) := by
  unfold UnlexedTokens.finished
  rw [usizeSub_one len h1 h2, decide_eq_decide]
  omega

/-- Helper: lex_string collects exactly the letter run at the cursor and
leaves the cursor after it. -/
theorem lexString_spec (full : List Char) (h64 : full.length < 2 ^ 64)
    (h1 : 1 ≤ full.length) :
    ∀ fuel i, i ≤ full.length → full.length + 1 ≤ fuel + i →
      lexString full fuel i =
        Except.ok ((full.drop i).takeWhile charRegexMatch,
          i + ((full.drop i).takeWhile charRegexMatch).length) := by
  intro fuel
  induction fuel with
  | zero => intro i hi hf; omega
  | succ fuel ih =>
    intro i hi hf
    by_cases hend : full.length ≤ i
    · have hieq : i = full.length := le_antisymm hi hend
      subst hieq
      have hfin : UnlexedTokens.finished full.length full.length = true := by
        rw [finished_eq _ _ h1 h64]; simp
      simp [lexString, hfin, List.drop_length]
    · push_neg at hend
      have hfin : UnlexedTokens.finished full.length i = false := by
        rw [finished_eq _ _ h1 h64]; simp; omega
      cases hc : full.get? i with
      | none => exact absurd (get?_none_le _ _ hc) (by omega)
      | some c =>
        have hdrop := drop_cons_of_get? full i c hc
        by_cases hch : charRegexMatch c
        · have hrec := ih (i + 1) (by omega) (by omega)
          simp only [lexString, hfin, Bool.false_eq_true, if_false, hc, hch, if_true,
            hrec, okBind, hdrop, List.takeWhile_cons, ite_true]
          simp [List.length_cons]
          omega
        · simp only [lexString, hfin, Bool.false_eq_true, if_false, hc,
            hch, ite_false, hdrop, List.takeWhile_cons]
          simp [hch]

/-- Helper: takeWhile never lengthens a list. -/
theorem length_takeWhile_le (p : Char → Bool) (l : List Char) :
    (l.takeWhile p).length ≤ l.length := by
  induction l with
  | nil => simp
  | cons c t ih =>
    by_cases h : p c
    · simpa [List.takeWhile_cons, h] using ih
    · simp [List.takeWhile_cons, h]

/-- Helper: the round-trip induction for lex_next_char over sources drawn
from the restricted character class. -/
theorem lexNextChar_roundtrip (full : List Char) (h64 : full.length < 2 ^ 64)
    (h1 : 1 ≤ full.length) (hall : ∀ c ∈ full, allowedSourceChar c = true) :
    ∀ fuel i, i ≤ full.length → full.length + 1 ≤ fuel + i →
      ∃ ts, lexNextChar full fuel i = Except.ok ts ∧
        (ts.map Token.to_string).flatten = full.drop i := by
  intro fuel
  induction fuel with
  | zero => intro i hi hf; omega
  | succ fuel ih =>
    intro i hi hf
    by_cases hend : full.length ≤ i
    · have hieq : i = full.length := le_antisymm hi hend
      subst hieq
      have hfin : UnlexedTokens.finished full.length full.length = true := by
        rw [finished_eq _ _ h1 h64]; simp
      exact ⟨[], by simp [lexNextChar, hfin], by simp [List.drop_length]⟩
    · push_neg at hend
      have hfin : UnlexedTokens.finished full.length i = false := by
        rw [finished_eq _ _ h1 h64]; simp; omega
      cases hc : full.get? i with
      | none => exact absurd (get?_none_le _ _ hc) (by omega)
      | some c =>
        have hca := hall c (get?_some_mem _ _ _ hc)
        have hdrop := drop_cons_of_get? full i c hc
        have hc' : full[i]? = some c := by
          rw [← List.get?_eq_getElem?]; exact hc
        by_cases hs1 : symbolRegexMatch c = true
        · obtain ⟨ts, hts, hj⟩ := ih (i + 1) (by omega) (by omega)
          refine ⟨Token.Symbol c :: ts, ?_, ?_⟩
          · simp [lexNextChar, hfin, hc', hs1, hts, okBind]
          · simp [Token.to_string, hj, ← hdrop]
        · by_cases hs2 : breakRegexMatch c = true
          · obtain ⟨ts, hts, hj⟩ := ih (i + 1) (by omega) (by omega)
            have hcc : c = ';' := by simpa [breakRegexMatch] using hs2
            refine ⟨Token.Break :: ts, ?_, ?_⟩
            · simp [lexNextChar, hfin, hc', hs1, hs2, hts, okBind]
            · subst hcc; simp [Token.to_string, hj, ← hdrop]
          · by_cases hs3 : parentesisRegexMatch c = true
            · obtain ⟨ts, hts, hj⟩ := ih (i + 1) (by omega) (by omega)
              refine ⟨Token.Parentesis c :: ts, ?_, ?_⟩
              · simp [lexNextChar, hfin, hc', hs1, hs2, hs3, hts, okBind]
              · simp [Token.to_string, hj, ← hdrop]
            · by_cases hs4 : branchingRegexMatch c = true
              · obtain ⟨ts, hts, hj⟩ := ih (i + 1) (by omega) (by omega)
                refine ⟨Token.Bracket c :: ts, ?_, ?_⟩
                · simp [lexNextChar, hfin, hc', hs1, hs2, hs3, hs4, hts, okBind]
                · simp [Token.to_string, hj, ← hdrop]
              · by_cases hs5 : paramRegexMatch c = true
                · obtain ⟨ts, hts, hj⟩ := ih (i + 1) (by omega) (by omega)
                  refine ⟨Token.Param c :: ts, ?_, ?_⟩
                  · simp [lexNextChar, hfin, hc', hs1, hs2, hs3, hs4, hs5, hts, okBind]
                  · simp [Token.to_string, hj, ← hdrop]
                · by_cases hs6 : charRegexMatch c = true
                  · -- identifier run
                    have hlex := lexString_spec full h64 h1 (full.length + 1) i hi (by omega)
                    have hchars_cons : (full.drop i).takeWhile charRegexMatch =
                        c :: (full.drop (i + 1)).takeWhile charRegexMatch := by
                      rw [hdrop, List.takeWhile_cons, if_pos hs6]
                    have hlenle : ((full.drop i).takeWhile charRegexMatch).length ≤
                        full.length - i := by
                      calc ((full.drop i).takeWhile charRegexMatch).length
                          ≤ (full.drop i).length :=
                            length_takeWhile_le charRegexMatch (full.drop i)
                        _ = full.length - i := by simp
                    have hlen1 : 1 ≤ ((full.drop i).takeWhile charRegexMatch).length := by
                      rw [hchars_cons]; simp
                    obtain ⟨ts, hts, hj⟩ :=
                      ih (i + ((full.drop i).takeWhile charRegexMatch).length)
                        (by omega) (by omega)
                    refine ⟨Token.Ident ((full.drop i).takeWhile charRegexMatch) :: ts, ?_, ?_⟩
                    · simp [lexNextChar, hfin, hc', hs1, hs2, hs3, hs4, hs5, hs6,
                        hlex, okBind, hts]
                    · have happ := takeWhile_append_drop charRegexMatch (full.drop i)
                      rw [List.drop_drop] at happ
                      simp only [List.map_cons, Token.to_string, List.flatten_cons, hj]
                      exact happ
                  · -- only the space character is left in the allowed class
                    have hsp : c = ' ' := by
                      simp only [allowedSourceChar, Bool.or_eq_true, decide_eq_true_eq]
                        at hca
                      rcases hca with ((((((h | h) | h) | h) | h) | h) | h)
                      · exact absurd h hs1
                      · exact absurd h hs2
                      · exact absurd h hs3
                      · exact absurd h hs4
                      · exact absurd h hs5
                      · exact absurd h hs6
                      · exact h
                    subst hsp
                    obtain ⟨ts, hts, hj⟩ := ih (i + 1) (by omega) (by omega)
                    have hnum : numberRegexMatch ' ' = false := by decide
                    have hws : whitespaceRegexMatch ' ' = true := by decide
                    refine ⟨Token.Space :: ts, ?_, ?_⟩
                    · simp [lexNextChar, hfin, hc', hs1, hs2, hs3, hs4, hs5, hs6,
                        hnum, hws, hts, okBind]
                    · simp [Token.to_string, hj, ← hdrop]

/-- C5 amended: lexing is a lossless left-to-right decomposition on the
character classes whose tokens print as their source text: for every nonempty
source (of usize length) made of operator/comparison characters, ';', braces,
brackets, parentheses, letters and plain spaces, the lexer accepts and the
concatenation of every emitted token's to_string in emission order reproduces
the source exactly.  (Sources with non-space whitespace, digit runs or range
literals are excluded: Space always prints as ' ', and Number/Range tokens
re-render their numeric value rather than the original spelling.) -/
theorem lex_roundtrip_restricted (s : List Char) (hne : s ≠ [])
    (h64 : s.length < 2 ^ 64) (hall : ∀ c ∈ s, allowedSourceChar c = true) :
    ∃ ts, Lexer.lex s = Except.ok ts ∧ (ts.map Token.to_string).flatten = s := by
  have h1 : 1 ≤ s.length := by
    cases s with
    | nil => exact absurd rfl hne
    | cons c t => simp
  obtain ⟨ts, hts, hj⟩ :=
    lexNextChar_roundtrip s h64 h1 hall (s.length + 2) 0 (by omega) (by omega)
  exact ⟨ts, hts, by simpa using hj⟩

/-- C5 witness: a concrete script-like source over the restricted classes. -/
theorem lex_roundtrip_restricted_witness :
    ("lsystem A {}".toList ≠ ([] : List Char)) ∧
    ("lsystem A {}".toList.length < 2 ^ 64) ∧
    (∀ c ∈ "lsystem A {}".toList, allowedSourceChar c = true) ∧
    (∃ ts, Lexer.lex "lsystem A {}".toList = Except.ok ts ∧
      (ts.map Token.to_string).flatten = "lsystem A {}".toList) :=
  ⟨by decide, by decide, by decide,
   lex_roundtrip_restricted "lsystem A {}".toList (by decide) (by decide) (by decide)⟩

end LSys
